import Mathlib

/-!
Shallow embedding of the attendance-server repository (three variants:
the file-backed variant, the unhardened MongoDB variant in `main.js`, and
the hardened MongoDB variant), together with proofs settling the frozen
claims about its specification.

Naming convention: definitions without a suffix embed `main.js`; `_file`
embeds the file-backed variant; `_h` embeds the hardened variant.
-/

namespace AttendanceServer

/-! ### Data model

`AttendanceRecord` embeds the record objects `{name, status, timestamp}`;
`status` is a free string in the unhardened variants, and `timestamp` is
`Option String` because the field may be absent in a request body.
-/

structure AttendanceRecord where
  name : String
  status : String
  timestamp : Option String
deriving DecidableEq

structure AttendanceSheet where
  date : String
  records : List AttendanceRecord
deriving DecidableEq

/-- The attendance store: the sequence of persisted sheets, in insertion
order (Mongo collection order / directory listing order). -/
abbrev Store := List AttendanceSheet

/-! ### JavaScript string primitives

ASCII models of `String.prototype.toLowerCase`, `String.prototype.includes`
and `String.prototype.trim`, operating on the underlying character lists.
-/

/-- ASCII model of JS `toLowerCase` on a single character. -/
def lowerChar (c : Char) : Char :=
  if 65 ≤ c.toNat ∧ c.toNat ≤ 90 then Char.ofNat (c.toNat + 32) else c

/-- ASCII model of JS `String.prototype.toLowerCase`. -/
def lowerStr (s : String) : String := ⟨s.data.map lowerChar⟩

/-- Does `hay` start with `needle`? (helper for `hasSub`). -/
def startsW : List Char → List Char → Bool
  | _, [] => true
  | [], _ :: _ => false
  | c :: cs, d :: ds => c = d && startsW cs ds

/-- Model of JS `hay.includes(needle)`: `needle` occurs as a contiguous
substring of `hay`. -/
def hasSub (needle : List Char) : List Char → Bool
  | [] => needle.isEmpty
  | c :: cs => startsW (c :: cs) needle || hasSub needle cs

/-- Model of JS `String.prototype.trim` (whitespace stripping; Lean's
`String.trim` strips the same ASCII whitespace on the inputs we model). -/
def jsTrim (s : String) : String := s.trim

/-! ### Calendar dates

The canonical date format is `YYYY-MM-DD` (zero-padded).  `dateVal` is an
order-faithful model of `new Date(s).getTime()` on canonical date strings:
it reads the eight digits as one decimal number `y*10000 + m*100 + d`,
which is strictly monotone in the chronological order of the denoted days,
so comparisons of `dateVal` model comparisons of the JS `Date` values.
-/

/-- Is `c` an ASCII digit (stated via `Char.toNat` bounds)? -/
def isDig (c : Char) : Bool := 48 ≤ c.toNat && c.toNat ≤ 57

/-- Numeric value of an ASCII digit character. -/
def digitVal (c : Char) : Nat := c.toNat - 48

/-- Does the string have the canonical zero-padded `YYYY-MM-DD` shape? -/
def isCanonicalDate (s : String) : Bool :=
  match s.data with
  | [y1, y2, y3, y4, h1, m1, m2, h2, d1, d2] =>
      isDig y1 && isDig y2 && isDig y3 && isDig y4 &&
      isDig m1 && isDig m2 && isDig d1 && isDig d2 &&
      h1 = '-' && h2 = '-'
  | _ => false

/-- Chronological key of a canonical `YYYY-MM-DD` string (0 on any other
shape; all claims about ordering are stated for canonical dates). -/
def dateVal (s : String) : Nat :=
  match s.data with
  | [y1, y2, y3, y4, _, m1, m2, _, d1, d2] =>
      digitVal y1 * 10000000 + digitVal y2 * 1000000 +
      digitVal y3 * 100000 + digitVal y4 * 10000 +
      digitVal m1 * 1000 + digitVal m2 * 100 +
      digitVal d1 * 10 + digitVal d2
  | _ => 0

/-! ### Sorting

The JS code sorts with `arr.sort((a, b) => new Date(b.date) - new Date(a.date))`
(descending by date value); V8's `Array.prototype.sort` is stable, so we
model it by a stable insertion sort with the comparator's relation.
-/

/-- Relation of the descending-by-numeric-key comparator. -/
def keyDesc {α : Type} (key : α → Nat) : α → α → Prop :=
  fun a b => key b ≤ key a

instance {α : Type} (key : α → Nat) : DecidableRel (keyDesc key) :=
  fun a b => inferInstanceAs (Decidable (key b ≤ key a))

instance {α : Type} (key : α → Nat) : IsTotal α (keyDesc key) :=
  ⟨fun a b => Nat.le_total (key b) (key a)⟩

instance {α : Type} (key : α → Nat) : IsTrans α (keyDesc key) :=
  ⟨fun _ _ _ hab hbc => Nat.le_trans hbc hab⟩

/-- Stable sort, descending by a numeric key. -/
def sortByKeyDesc {α : Type} (key : α → Nat) (l : List α) : List α :=
  l.insertionSort (keyDesc key)

/-! Lexicographic (code-unit) string comparison, modelling the string
ordering used by MongoDB's `sort({date: -1})` and by JS `<` on strings. -/

/-- Strict code-unit lexicographic order on character lists. -/
def lexLt : List Char → List Char → Bool
  | [], [] => false
  | [], _ :: _ => true
  | _ :: _, [] => false
  | a :: as, b :: bs =>
      a.toNat < b.toNat || (a.toNat = b.toNat && lexLt as bs)

/-- Non-strict code-unit lexicographic order. -/
def lexLe (x y : List Char) : Bool := !(lexLt y x)

theorem lexLt_asymm : ∀ x y : List Char, lexLt x y = true → lexLt y x = false
  | [], [] => by simp [lexLt]
  | [], _ :: _ => by simp [lexLt]
  | _ :: _, [] => by simp [lexLt]
  | a :: as, b :: bs => by
    simp only [lexLt, Bool.or_eq_true, Bool.and_eq_true, decide_eq_true_eq,
      Bool.or_eq_false_iff, Bool.and_eq_false_iff, decide_eq_false_iff_not]
    rintro (h | ⟨he, hr⟩)
    · exact ⟨by omega, Or.inl (by omega)⟩
    · exact ⟨by omega, Or.inr (lexLt_asymm as bs hr)⟩

theorem lexLt_or_split : ∀ x y z : List Char, lexLt z x = true →
    lexLt z y = true ∨ lexLt y x = true
  | x, y, [] => by
    cases x with
    | nil => simp [lexLt]
    | cons a as =>
      cases y with
      | nil => simp [lexLt]
      | cons b bs => simp [lexLt]
  | [], _, _ :: _ => by simp [lexLt]
  | a :: as, y, c :: cs => by
    cases y with
    | nil => simp [lexLt]
    | cons b bs =>
      simp only [lexLt, Bool.or_eq_true, Bool.and_eq_true, decide_eq_true_eq]
      rintro (h | ⟨he, hr⟩)
      · by_cases hcb : c.toNat < b.toNat
        · exact Or.inl (Or.inl hcb)
        · exact Or.inr (Or.inl (by omega))
      · by_cases hcb : c.toNat < b.toNat
        · exact Or.inl (Or.inl hcb)
        · by_cases hbc : b.toNat < c.toNat
          · exact Or.inr (Or.inl (by omega))
          · rcases lexLt_or_split as bs cs hr with h' | h'
            · exact Or.inl (Or.inr ⟨by omega, h'⟩)
            · exact Or.inr (Or.inr ⟨by omega, h'⟩)

/-- Relation of the descending-by-string-key ordering (larger strings
first), as produced by MongoDB `sort({key: -1})`. -/
def strDesc {α : Type} (key : α → String) : α → α → Prop :=
  fun a b => lexLe (key b).data (key a).data = true

instance {α : Type} (key : α → String) : DecidableRel (strDesc key) :=
  fun _ _ => inferInstanceAs (Decidable (_ = true))

instance {α : Type} (key : α → String) : IsTotal α (strDesc key) := by
  constructor
  intro a b
  by_cases h : lexLt (key a).data (key b).data = true
  · exact Or.inr (by simp [strDesc, lexLe, lexLt_asymm _ _ h])
  · exact Or.inl (by simp [strDesc, lexLe, Bool.eq_false_iff.mpr] at h ⊢; simp [h])

instance {α : Type} (key : α → String) : IsTrans α (strDesc key) := by
  constructor
  intro a b c hab hbc
  simp only [strDesc, lexLe, Bool.not_eq_true'] at hab hbc ⊢
  by_cases h : lexLt (key a).data (key c).data = true
  · rcases lexLt_or_split (key c).data (key b).data (key a).data h with h' | h'
    · rw [hab] at h'; cases h'
    · rw [hbc] at h'; cases h'
  · exact Bool.eq_false_iff.mpr h

/-- Stable sort, descending by a string key (code-unit order). -/
def sortByStrDesc {α : Type} (key : α → String) (l : List α) : List α :=
  l.insertionSort (strDesc key)

/-- Relation of the ascending string sort `arr.sort()` used by the
`/api/attendance/dates` endpoints (smaller strings first). -/
def strAsc : String → String → Prop :=
  fun a b => lexLe a.data b.data = true

instance : DecidableRel strAsc :=
  fun _ _ => inferInstanceAs (Decidable (_ = true))

instance : IsTotal String strAsc := by
  constructor
  intro a b
  rcases (inferInstanceAs (IsTotal String (strDesc id))).total b a with h | h
  · exact Or.inl h
  · exact Or.inr h

instance : IsTrans String strAsc := by
  constructor
  intro a b c hab hbc
  exact (inferInstanceAs (IsTrans String (strDesc id))).trans c b a hbc hab

/-! ### Arithmetic

`jsRound` models JS `Math.round` on the (non-negative) rational values the
endpoints compute: `Math.round(x) = floor(x + 1/2)` (round half up). -/

/-- Executable model of `Math.round((p / t) * 100)` for counts `p ≤ t`:
JS `Math.round(x)` is `floor(x + 1/2)` (round half toward positive
infinity), and `floor(100p/t + 1/2) = (200p + t) / (2t)` in natural
division; `ratePercent_eq_round` proves this characterization. -/
def ratePercent (p t : ℕ) : ℕ := (200 * p + t) / (2 * t)

theorem ratePercent_eq_round (p t : ℕ) (ht : 0 < t) :
    (ratePercent p t : ℤ) = ⌊(p : ℚ) / (t : ℚ) * 100 + 1 / 2⌋ := by
  have ht' : ((t : ℚ)) ≠ 0 := by
    exact_mod_cast Nat.pos_iff_ne_zero.mp ht
  have h2t : ((2 * t : ℕ) : ℚ) ≠ 0 := by
    push_cast
    simpa using ht'
  have harg : (p : ℚ) / (t : ℚ) * 100 + 1 / 2 =
      ((200 * p + t : ℕ) : ℚ) / ((2 * t : ℕ) : ℚ) := by
    push_cast
    field_simp
    ring
  rw [harg, Rat.floor_natCast_div_natCast, ratePercent, Int.ofNat_ediv]

/-- Count of records whose `status` field is exactly `"Present"`
(`records.filter(r => r.status === 'Present').length`). -/
def presentCount (rs : List AttendanceRecord) : ℕ :=
  (rs.filter (fun r => r.status = "Present")).length

/-! ### Attendance Store operations -/

/-- Embeds `POST /api/attendance` of `main.js` (lines 81-111): find the
first sheet for the date and replace its `records` in place, else append a
new sheet.  Records are stored exactly as received. -/
def upsertSheet : Store → String → List AttendanceRecord → Store
  | [], d, rs => [⟨d, rs⟩]
  | sh :: rest, d, rs =>
      if sh.date = d then ⟨d, rs⟩ :: rest else sh :: upsertSheet rest d rs

/-- Embeds `GET /api/attendance/:date` (`Attendance.findOne({date})`). -/
def getSheet (st : Store) (d : String) : Option AttendanceSheet :=
  st.find? (fun sh => sh.date = d)

/-- The dates of the stored sheets, in store order. -/
def datesOf (st : Store) : List String := st.map (fun sh => sh.date)

/-- Embeds `GET /api/attendance/dates`: `dates.sort().reverse()`
(lexicographic ascending string sort, then reversed). -/
def getDates (st : Store) : List String :=
  ((datesOf st).insertionSort strAsc).reverse

/-- Embeds the hardened variant's per-record normalization in
`POST /api/attendance` (part_000 lines 599-606): trim `name` and `status`,
default `timestamp` to the save time when the field is absent (or empty,
since `record.timestamp || now` tests JS truthiness). -/
def normalizeRecord (now : String) (r : AttendanceRecord) : AttendanceRecord :=
  { name := jsTrim r.name
    status := jsTrim r.status
    timestamp :=
      match r.timestamp with
      | some t => if t = "" then some now else some t
      | none => some now }

/-- Embeds the hardened variant's `POST /api/attendance` (part_000 lines
595-626): `findOneAndUpdate({date}, {date, records}, {upsert: true})` with
the date trimmed and every record normalized; `now` is the save time. -/
def upsertSheet_h (st : Store) (d : String) (rs : List AttendanceRecord)
    (now : String) : Store :=
  upsertSheet st (jsTrim d) (rs.map (normalizeRecord now))

/-! ### Summaries (`GET /api/attendance`) -/

structure Summary where
  date : String
  totalStudents : ℕ
  present : ℕ
  absent : ℕ
  attendanceRate : ℕ
deriving DecidableEq

/-- Per-sheet summary of `main.js` (lines 147-158) and of the hardened
variant (part_000 lines 662-674): `absent = total - present` and the rate
is guarded by `totalStudents > 0`. -/
def summarize (sh : AttendanceSheet) : Summary :=
  let p := presentCount sh.records
  let t := sh.records.length
  { date := sh.date
    totalStudents := t
    present := p
    absent := t - p
    attendanceRate := if 0 < t then ratePercent p t else 0 }

/-- Per-sheet summary of the file variant (part_000 lines 131-142):
`absent` counts records with status exactly `"Absent"`, and the rate
divides by `records.length` without a zero guard — on an empty sheet the
JS computation is `Math.round(0/0 * 100) = NaN`, modelled as `none`. -/
structure FileSummary where
  date : String
  totalStudents : ℕ
  present : ℕ
  absent : ℕ
  attendanceRate : Option ℕ
deriving DecidableEq

def summarize_file (sh : AttendanceSheet) : FileSummary :=
  let p := presentCount sh.records
  let t := sh.records.length
  { date := sh.date
    totalStudents := t
    present := p
    absent := (sh.records.filter (fun r => r.status = "Absent")).length
    attendanceRate := if 0 < t then some (ratePercent p t) else none }

/-- Embeds `GET /api/attendance` of `main.js` (lines 143-166): summarize
every sheet, then `sort((a, b) => new Date(b.date) - new Date(a.date))`. -/
def listSummaries (st : Store) : List Summary :=
  sortByKeyDesc (fun s => dateVal s.date) (st.map summarize)

/-- Embeds `GET /api/attendance` of the file variant (part_000 lines
108-157): same date sort over the file summaries. -/
def listSummaries_file (st : Store) : List FileSummary :=
  sortByKeyDesc (fun s => dateVal s.date) (st.map summarize_file)

/-- Embeds `GET /api/attendance` of the hardened variant (part_000 lines
658-681): `Attendance.find().sort({date: -1})` (descending code-unit
string order) and then the per-sheet summary map. -/
def listSummaries_h (st : Store) : List Summary :=
  (sortByStrDesc (fun sh => sh.date) st).map summarize

/-! ### Overview (`GET /api/attendance/stats/overview`) -/

structure Overview where
  totalRecords : ℕ
  averageAttendance : ℕ
  totalClasses : ℕ
deriving DecidableEq

/-- Embeds `GET /api/attendance/stats/overview` of `main.js` (lines
197-229): zeros when no sheets exist, otherwise sum the present counts and
record counts over all sheets and round the ratio (guarded). -/
def overview (st : Store) : Overview :=
  if st.length = 0 then ⟨0, 0, 0⟩
  else
    let tp := (st.map (fun sh => presentCount sh.records)).sum
    let ts := (st.map (fun sh => sh.records.length)).sum
    { totalRecords := st.length
      averageAttendance := if 0 < ts then ratePercent tp ts else 0
      totalClasses := st.length }

/-- Embeds the same endpoint of the file variant (part_000 lines 216-269)
and, restricted to the three shared fields, of the hardened variant
(part_000 lines 715-754): the counting rule is identical. -/
def overview_file (st : Store) : Overview :=
  if st.length = 0 then ⟨0, 0, 0⟩
  else
    let tp := (st.map (fun sh => presentCount sh.records)).sum
    let ts := (st.map (fun sh => sh.records.length)).sum
    { totalRecords := st.length
      averageAttendance := if 0 < ts then ratePercent tp ts else 0
      totalClasses := st.length }

/-! ### Search (`GET /api/attendance/search/:studentName`) -/

structure SearchHit where
  date : String
  name : String
  status : String
  timestamp : Option String
deriving DecidableEq

/-- Does the record's lower-cased name contain the lower-cased query as a
substring (`record.name.toLowerCase().includes(studentName)`)?  The query
is assumed already lower-cased by the caller, as in the source. -/
def recMatches (qL : String) (r : AttendanceRecord) : Bool :=
  hasSub qL.data (lowerStr r.name).data

/-- All matching records of a sheet, as search hits, in record order. -/
def sheetHits (qL : String) (sh : AttendanceSheet) : List SearchHit :=
  (sh.records.filter (recMatches qL)).map
    (fun r => ⟨sh.date, r.name, r.status, r.timestamp⟩)

/-- Embeds `GET /api/attendance/search/:studentName` of `main.js` (lines
169-194): push every matching record of every sheet, then sort descending
by date value. -/
def searchByName (st : Store) (q : String) : List SearchHit :=
  sortByKeyDesc (fun h => dateVal h.date)
    (st.flatMap (sheetHits (lowerStr q)))

/-- Embeds the same endpoint of the file variant (part_000 lines 160-213):
`records.find(...)` takes only the first matching record of each sheet. -/
def searchByName_file (st : Store) (q : String) : List SearchHit :=
  sortByKeyDesc (fun h => dateVal h.date)
    (st.filterMap (fun sh =>
      (sh.records.find? (recMatches (lowerStr q))).map
        (fun r => ⟨sh.date, r.name, r.status, r.timestamp⟩)))

/-! ### Roster Store: batch delete (hardened variant, part_000 lines 542-592) -/

/-- A roster entry; `mongoId` models the storage-assigned identity `_id`. -/
structure Student where
  mongoId : String
  studentId : String
  name : String
  className : String
deriving DecidableEq

/-- The `$or: [{_id: id}, {studentId: id}]` match of the batch delete. -/
def matchesId (i : String) (s : Student) : Bool :=
  s.mongoId = i || s.studentId = i

/-- Model of `findOneAndDelete`: remove the first matching student,
returning the deleted student (if any) and the remaining roster. -/
def removeFirst (p : Student → Bool) :
    List Student → Option Student × List Student
  | [] => (none, [])
  | s :: rest =>
      if p s then (some s, rest)
      else
        let r := removeFirst p rest
        (r.1, s :: r.2)

/-- One `findOneAndDelete` per identifier, in order; returns the deleted
students (in identifier order) and the final roster.  The source issues
the deletes through `Promise.all`; since each delete touches at most one
student, the sequential model is the race-free semantics. -/
def runDeletes : List Student → List String → List Student × List Student
  | roster, [] => ([], roster)
  | roster, i :: is =>
      let r := removeFirst (matchesId i) roster
      match r.1 with
      | some s => ((runDeletes r.2 is).1.cons s, (runDeletes r.2 is).2)
      | none => runDeletes r.2 is

/-- The `studentIds` field of the batch-delete request body: `absent`
covers a missing (or otherwise falsy) field, `nonArray` a truthy value
that is not an array. -/
inductive IdsField
  | absent
  | nonArray
  | arr (ids : List String)
deriving DecidableEq

/-- Outcome of `DELETE /api/students/batch/delete`. -/
inductive BatchOutcome
  | invalid (msg : String)
  | noneFound (requestedCount : ℕ)
  | ok (deletedCount notFoundCount : ℕ) (deletedStudents : List Student)
deriving DecidableEq

/-- Embeds `DELETE /api/students/batch/delete` of the hardened variant
(part_000 lines 542-592): 400 when `studentIds` is missing, not an array,
or empty; one independent `findOneAndDelete` per identifier; 404 when no
identifier resolved; otherwise counts and the deleted students. -/
def deleteBatch (roster : List Student) :
    IdsField → BatchOutcome × List Student
  | .absent => (.invalid "studentIds array is required in request body", roster)
  | .nonArray => (.invalid "studentIds array is required in request body", roster)
  | .arr ids =>
      if ids.isEmpty then (.invalid "studentIds array cannot be empty", roster)
      else
        let r := runDeletes roster ids
        if r.1.isEmpty then (.noneFound ids.length, r.2)
        else (.ok r.1.length (ids.length - r.1.length) r.1, r.2)

/-! ### Save-attendance validation (unhardened variants, claim C10) -/

/-- The `records` field of a `POST /api/attendance` body, as an untyped
JSON value: it need not be an array in the unhardened variants. -/
inductive RecordsField
  | nullv
  | boolv (b : Bool)
  | numv (n : ℤ)
  | strv (s : String)
  | arrv (rs : List AttendanceRecord)
deriving DecidableEq

/-- JS truthiness of a `records` value (`!attendanceData.records`):
`null`/`undefined`, `false`, `0` and `""` are falsy; arrays (even empty
ones) are truthy. -/
def truthyRecords : RecordsField → Bool
  | .nullv => false
  | .boolv b => b
  | .numv n => decide (n ≠ 0)
  | .strv s => decide (s ≠ "")
  | .arrv _ => true

/-- Is the value an array? (`Array.isArray`). -/
def isArrayRecords : RecordsField → Bool
  | .arrv _ => true
  | _ => false

/-- The unhardened validation of `POST /api/attendance` (`main.js` lines
85-87 and part_000 lines 61-63): reject with 400 exactly when `date` or
`records` is falsy; the request `date` is modelled as a string, whose JS
truthiness is non-emptiness. -/
def saveAttendanceValid (date : String) (records : RecordsField) : Bool :=
  !(decide (date = "") || !truthyRecords records)

/-- Result of the file variant's `POST /api/attendance`. -/
inductive SaveResult
  | badRequest
  | saved (date : String)
deriving DecidableEq

/-- The file variant's persisted state: one JSON file per date, holding
the raw request payload (`attendance-<date>.json`). -/
abbrev FileStore := List (String × RecordsField)

/-- Overwrite-or-create the per-date file. -/
def upsertFileStore : FileStore → String → RecordsField → FileStore
  | [], d, v => [(d, v)]
  | (k, w) :: rest, d, v =>
      if k = d then (d, v) :: rest else (k, w) :: upsertFileStore rest d v

/-- Read the per-date file. -/
def lookupFileStore (st : FileStore) (d : String) : Option RecordsField :=
  (st.find? (fun kv => kv.1 = d)).map (fun kv => kv.2)

/-- Embeds `POST /api/attendance` of the file variant (part_000 lines
57-72): after the truthiness-only validation, the raw payload is written
verbatim to `attendance-<date>.json`. -/
def saveAttendance_file (st : FileStore) (date : String)
    (records : RecordsField) : SaveResult × FileStore :=
  if saveAttendanceValid date records then
    (.saved date, upsertFileStore st date records)
  else (.badRequest, st)

/-! ### Sequences of upserts (for the uniqueness invariant, claim C8) -/

/-- Apply a sequence of `main.js` upserts, left to right. -/
def applyUpserts (st : Store) (ops : List (String × List AttendanceRecord)) :
    Store :=
  ops.foldl (fun s p => upsertSheet s p.1 p.2) st

/-- Apply a sequence of hardened upserts (date, records, save time). -/
def applyUpserts_h (st : Store)
    (ops : List (String × List AttendanceRecord × String)) : Store :=
  ops.foldl (fun s p => upsertSheet_h s p.1 p.2.1 p.2.2) st

/-! ### Spec-side definitions (for refinement comparisons)

These two follow the specification's words rather than the code and are
only compared against the code-side definitions above.
-/

/-- Modelled from the spec: a sheet's attendance rate is
`round(present / total * 100)`, defined as 0 when `total` is 0. -/
def specRate (p t : ℕ) : ℤ :=
  if t = 0 then 0 else ⌊(p : ℚ) / (t : ℚ) * 100 + 1 / 2⌋

/-- Modelled from the spec: the overview average is
`round(sum(present) / sum(total) * 100)`, defined as 0 when there are
zero sheets or zero total records across all sheets. -/
def specAverageAttendance (st : Store) : ℤ :=
  if st = [] ∨ (st.map (fun sh => sh.records.length)).sum = 0 then 0
  else
    ⌊(((st.map (fun sh => presentCount sh.records)).sum : ℕ) : ℚ) /
        (((st.map (fun sh => sh.records.length)).sum : ℕ) : ℚ) * 100 + 1 / 2⌋

/-! ### Concrete stores used by the claims' literal examples -/

/-- The two-sheet store of the spec's search example. -/
def exSearchStore : Store :=
  [⟨"2024-01-10", [⟨"Ana Lee", "Present", some "t1"⟩]⟩,
   ⟨"2024-01-11", [⟨"banana", "Absent", some "t2"⟩]⟩]

/-- A one-sheet store in which two records match the query `"ana"`. -/
def exTwoMatchStore : Store :=
  [⟨"2024-01-10",
    [⟨"Ana", "Present", some "t1"⟩, ⟨"Anand", "Late", some "t2"⟩]⟩]

/-- Three sheets with (present, total) = (8,10), (5,5), (0,5). -/
def exOverviewStore : Store :=
  [⟨"2024-01-01",
    List.replicate 8 ⟨"s", "Present", none⟩ ++
      List.replicate 2 ⟨"s", "Absent", none⟩⟩,
   ⟨"2024-01-02", List.replicate 5 ⟨"s", "Present", none⟩⟩,
   ⟨"2024-01-03", List.replicate 5 ⟨"s", "Absent", none⟩⟩]

/-- Two sheets whose dates cross a month boundary. -/
def exMonthStore : Store :=
  [⟨"2024-01-31", [⟨"a", "Present", none⟩]⟩,
   ⟨"2024-02-01", [⟨"b", "Absent", none⟩]⟩]

/-- A roster containing students S1 and S2. -/
def exS1 : Student := ⟨"oid1", "S1", "Alice", "10A"⟩

def exS2 : Student := ⟨"oid2", "S2", "Bob", "10A"⟩

/-! ### Helper lemmas about the store operations -/

theorem getSheet_upsertSheet (st : Store) (d : String)
    (rs : List AttendanceRecord) :
    getSheet (upsertSheet st d rs) d = some ⟨d, rs⟩ := by
  induction st with
  | nil => simp [upsertSheet, getSheet]
  | cons sh rest ih =>
    by_cases h : sh.date = d
    · simp [upsertSheet, h, getSheet]
    · simpa [upsertSheet, h, getSheet] using ih

theorem datesOf_cons (sh : AttendanceSheet) (rest : Store) :
    datesOf (sh :: rest) = sh.date :: datesOf rest := rfl

theorem datesOf_upsertSheet_mem (st : Store) (d : String)
    (rs : List AttendanceRecord) (h : d ∈ datesOf st) :
    datesOf (upsertSheet st d rs) = datesOf st := by
  induction st with
  | nil => simp [datesOf] at h
  | cons sh rest ih =>
    by_cases hd : sh.date = d
    · simp [upsertSheet, hd, datesOf_cons, datesOf]
    · have h' : d ∈ datesOf rest := by
        rw [datesOf_cons, List.mem_cons] at h
        rcases h with he | hm
        · exact absurd he.symm hd
        · exact hm
      simpa [upsertSheet, hd, datesOf_cons] using ih h'

theorem datesOf_upsertSheet_not_mem (st : Store) (d : String)
    (rs : List AttendanceRecord) (h : d ∉ datesOf st) :
    datesOf (upsertSheet st d rs) = datesOf st ++ [d] := by
  induction st with
  | nil => simp [upsertSheet, datesOf]
  | cons sh rest ih =>
    have hd : sh.date ≠ d := by
      intro he
      exact h (by rw [datesOf_cons, he]; exact List.mem_cons_self _ _)
    have h' : d ∉ datesOf rest := by
      intro hm
      exact h (by rw [datesOf_cons]; exact List.mem_cons_of_mem _ hm)
    simpa [upsertSheet, hd, datesOf_cons] using ih h'

theorem nodup_datesOf_upsertSheet {st : Store} (d : String)
    (rs : List AttendanceRecord) (h : (datesOf st).Nodup) :
    (datesOf (upsertSheet st d rs)).Nodup := by
  by_cases hm : d ∈ datesOf st
  · rw [datesOf_upsertSheet_mem st d rs hm]
    exact h
  · rw [datesOf_upsertSheet_not_mem st d rs hm]
    simp [List.nodup_append, h, hm]

theorem nodup_datesOf_applyUpserts :
    ∀ (ops : List (String × List AttendanceRecord)) (st : Store),
      (datesOf st).Nodup → (datesOf (applyUpserts st ops)).Nodup
  | [], _, h => h
  | op :: ops, st, h =>
    nodup_datesOf_applyUpserts ops (upsertSheet st op.1 op.2)
      (nodup_datesOf_upsertSheet op.1 op.2 h)

theorem nodup_datesOf_applyUpserts_h :
    ∀ (ops : List (String × List AttendanceRecord × String)) (st : Store),
      (datesOf st).Nodup → (datesOf (applyUpserts_h st ops)).Nodup
  | [], _, h => h
  | op :: ops, st, h =>
    nodup_datesOf_applyUpserts_h ops
      (upsertSheet_h st op.1 op.2.1 op.2.2)
      (nodup_datesOf_upsertSheet (jsTrim op.1) _ h)

theorem nodup_getDates {st : Store} (h : (datesOf st).Nodup) :
    (getDates st).Nodup := by
  rw [getDates, List.nodup_reverse]
  exact ((List.perm_insertionSort strAsc (datesOf st)).symm.nodup) h

theorem lookupFileStore_upsertFileStore (st : FileStore) (d : String)
    (v : RecordsField) :
    lookupFileStore (upsertFileStore st d v) d = some v := by
  induction st with
  | nil => simp [upsertFileStore, lookupFileStore]
  | cons kv rest ih =>
    by_cases h : kv.1 = d
    · simp [upsertFileStore, h, lookupFileStore]
    · simpa [upsertFileStore, h, lookupFileStore] using ih

theorem runDeletes_fst_length_le (ids : List String) :
    ∀ roster : List Student, (runDeletes roster ids).1.length ≤ ids.length := by
  induction ids with
  | nil => intro roster; simp [runDeletes]
  | cons i is ih =>
    intro roster
    simp only [runDeletes]
    cases h : (removeFirst (matchesId i) roster).1 with
    | none =>
      simp only [h]
      exact Nat.le_trans (ih _) (Nat.le_succ _)
    | some s =>
      simp only [h, List.cons]
      exact Nat.succ_le_succ (ih _)

theorem map_eq_self_of_mem {α : Type} {f : α → α} :
    ∀ {l : List α}, (∀ a ∈ l, f a = a) → l.map f = l
  | [], _ => rfl
  | a :: l, h => by
    rw [List.map_cons, h a (List.mem_cons_self _ _),
      map_eq_self_of_mem (fun b hb => h b (List.mem_cons_of_mem _ hb))]

theorem ratePercent_le_100 {p t : ℕ} (hpt : p ≤ t) (ht : 0 < t) :
    ratePercent p t ≤ 100 := by
  rw [ratePercent]
  have h2t : 0 < 2 * t := by omega
  have h : 200 * p + t < 101 * (2 * t) := by omega
  have hlt := (Nat.div_lt_iff_lt_mul h2t).mpr h
  omega

theorem lexLt_canonical_iff (s1 s2 : String)
    (h1 : isCanonicalDate s1 = true) (h2 : isCanonicalDate s2 = true) :
    (lexLt s1.data s2.data = true) ↔ dateVal s1 < dateVal s2 := by
  unfold isCanonicalDate at h1 h2
  split at h1
  · rename_i a1 a2 a3 a4 ah1 a5 a6 ah2 a7 a8 heq1
    split at h2
    · rename_i b1 b2 b3 b4 bh1 b5 b6 bh2 b7 b8 heq2
      simp only [Bool.and_eq_true, isDig, decide_eq_true_eq] at h1 h2
      obtain ⟨⟨hdig1, hd1a⟩, hd1b⟩ := h1
      obtain ⟨⟨hdig2, hd2a⟩, hd2b⟩ := h2
      subst hd1a hd1b hd2a hd2b
      simp only [dateVal]
      rw [heq1, heq2]
      simp only [lexLt, digitVal]
      simp only [Bool.or_eq_true, Bool.and_eq_true, decide_eq_true_eq,
        lt_self_iff_false, false_or, true_and, Bool.false_eq_true,
        and_false, or_false]
      omega
    · exact absurd h2 (by simp)
  · exact absurd h1 (by simp)

theorem pairwise_sortByKeyDesc {α : Type} (key : α → Nat) (l : List α) :
    List.Pairwise (fun a b => key b ≤ key a) (sortByKeyDesc key l) :=
  List.sorted_insertionSort (keyDesc key) l

theorem lexLe_canonical_iff (s1 s2 : String)
    (h1 : isCanonicalDate s1 = true) (h2 : isCanonicalDate s2 = true) :
    (lexLe s1.data s2.data = true) ↔ dateVal s1 ≤ dateVal s2 := by
  have hlt := lexLt_canonical_iff s2 s1 h2 h1
  rw [lexLe, Bool.not_eq_true']
  constructor
  · intro h
    by_contra hc
    push_neg at hc
    have := hlt.mpr hc
    rw [this] at h
    cases h
  · intro h
    cases hb : lexLt s2.data s1.data with
    | false => rfl
    | true => exact absurd (hlt.mp hb) (by omega)

theorem deleteBatch_arr_eq (roster : List Student) (ids : List String)
    (h : ids.isEmpty = false) :
    deleteBatch roster (.arr ids) =
      if (runDeletes roster ids).1.isEmpty
      then (.noneFound ids.length, (runDeletes roster ids).2)
      else (.ok (runDeletes roster ids).1.length
              (ids.length - (runDeletes roster ids).1.length)
              (runDeletes roster ids).1, (runDeletes roster ids).2) := by
  simp [deleteBatch, h]

theorem filter_two_disjoint_le {α : Type} (p q : α → Bool)
    (hpq : ∀ a, p a = true → q a = false) :
    ∀ l : List α, (l.filter p).length + (l.filter q).length ≤ l.length := by
  intro l
  induction l with
  | nil => simp
  | cons a l ih =>
    cases hp : p a with
    | true =>
      have hq := hpq a hp
      simp [List.filter_cons, hp, hq]
      omega
    | false =>
      cases hq : q a with
      | true =>
        simp [List.filter_cons, hp, hq]
        omega
      | false =>
        simp [List.filter_cons, hp, hq]
        omega

theorem mem_listSummaries {st : Store} {s : Summary}
    (hs : s ∈ listSummaries st) : ∃ sh ∈ st, s = summarize sh := by
  rw [listSummaries, sortByKeyDesc] at hs
  have hs' := (List.perm_insertionSort _ _).mem_iff.mp hs
  obtain ⟨sh, hsh, he⟩ := List.mem_map.mp hs'
  exact ⟨sh, hsh, he.symm⟩

/-! ### Claims -/

/-- C2: for every store, date and record sets R1, R2, upserting R1 and
then R2 for the same date leaves `getSheet(date)` returning exactly R2
(full replacement, no merge), and an upsert for an unknown date creates a
new sheet with exactly the given records.  The `main.js` upsert keeps the
records verbatim; the hardened upsert stores them normalized (so "exactly
R2" holds there whenever R2 is already normalized). -/
theorem upsert_replace_semantics (st : Store) (d : String)
    (R1 R2 : List AttendanceRecord) (now1 now2 : String) :
    getSheet (upsertSheet (upsertSheet st d R1) d R2) d = some ⟨d, R2⟩
    ∧ (getSheet st d = none →
        getSheet (upsertSheet st d R2) d = some ⟨d, R2⟩)
    ∧ getSheet (upsertSheet_h (upsertSheet_h st d R1 now1) d R2 now2)
        (jsTrim d) = some ⟨jsTrim d, R2.map (normalizeRecord now2)⟩
    ∧ ((∀ r ∈ R2, normalizeRecord now2 r = r) →
        getSheet (upsertSheet_h (upsertSheet_h st d R1 now1) d R2 now2)
          (jsTrim d) = some ⟨jsTrim d, R2⟩) := by
  refine ⟨getSheet_upsertSheet _ _ _, fun _ => getSheet_upsertSheet _ _ _,
    getSheet_upsertSheet _ _ _, fun h => ?_⟩
  exact (getSheet_upsertSheet _ _ _).trans (by rw [map_eq_self_of_mem h])

/-- Witness for C2: the creation case at a concrete empty store. -/
theorem upsert_replace_semantics_witness :
    getSheet (upsertSheet [] "2024-01-05" [⟨"B", "Absent", some "y"⟩])
        "2024-01-05"
      = some ⟨"2024-01-05", [⟨"B", "Absent", some "y"⟩]⟩ :=
  (upsert_replace_semantics [] "2024-01-05" [⟨"A", "Present", some "x"⟩]
      [⟨"B", "Absent", some "y"⟩] "T1" "T2").2.1 (by decide)

/-- C8: starting from any store with pairwise-distinct sheet dates, any
sequence of upserts (in the `main.js` or the hardened variant) preserves
that no two sheets share a date, so `getSheet` is unambiguous and
`getDates` contains no duplicates. -/
theorem sheet_dates_unique (st : Store)
    (ops : List (String × List AttendanceRecord))
    (ops' : List (String × List AttendanceRecord × String))
    (h : (datesOf st).Nodup) :
    (datesOf (applyUpserts st ops)).Nodup
    ∧ (getDates (applyUpserts st ops)).Nodup
    ∧ (datesOf (applyUpserts_h st ops')).Nodup :=
  ⟨nodup_datesOf_applyUpserts ops st h,
   nodup_getDates (nodup_datesOf_applyUpserts ops st h),
   nodup_datesOf_applyUpserts_h ops' st h⟩

/-- Witness for C8: a concrete sequence that revisits a date. -/
theorem sheet_dates_unique_witness :
    (datesOf (applyUpserts []
        [("2024-01-01", [⟨"a", "Present", none⟩]),
         ("2024-01-02", [⟨"b", "Absent", none⟩]),
         ("2024-01-01", [⟨"c", "Late", none⟩])])).Nodup
    ∧ (getDates (applyUpserts []
        [("2024-01-01", [⟨"a", "Present", none⟩]),
         ("2024-01-02", [⟨"b", "Absent", none⟩]),
         ("2024-01-01", [⟨"c", "Late", none⟩])])).Nodup
    ∧ (datesOf (applyUpserts_h []
        [("2024-01-01", [⟨"a", "Present", none⟩], "T1"),
         ("2024-01-01", [⟨"c", "Late", none⟩], "T2")])).Nodup :=
  sheet_dates_unique []
    [("2024-01-01", [⟨"a", "Present", none⟩]),
     ("2024-01-02", [⟨"b", "Absent", none⟩]),
     ("2024-01-01", [⟨"c", "Late", none⟩])]
    [("2024-01-01", [⟨"a", "Present", none⟩], "T1"),
     ("2024-01-01", [⟨"c", "Late", none⟩], "T2")]
    (by decide)

/-- C9 counterexample: in `main.js`, a record saved without a timestamp
is stored with no timestamp at all — the timestamps of the stored records
are `[none]`, not the save time, refuting the claim for this variant. -/
theorem timestamp_default_counterexample :
    ((upsertSheet [] "2024-01-05" [⟨"Ana", "Present", none⟩]).flatMap
        (fun sh => sh.records)).map (fun r => r.timestamp) = [none] := by
  decide

/-- C9 as amended: only the hardened variant normalizes timestamps — a
record without a timestamp (or with an empty one) gets the save time, a
record with a non-empty timestamp keeps it — while the `main.js` upsert
stores records exactly as received. -/
theorem timestamp_normalization_hardened_only (st : Store) (d now : String)
    (rs : List AttendanceRecord) :
    getSheet (upsertSheet_h st d rs now) (jsTrim d)
      = some ⟨jsTrim d, rs.map (normalizeRecord now)⟩
    ∧ (∀ r ∈ rs, r.timestamp = none →
        (normalizeRecord now r).timestamp = some now)
    ∧ (∀ r ∈ rs, ∀ t : String, r.timestamp = some t → t ≠ "" →
        (normalizeRecord now r).timestamp = some t)
    ∧ getSheet (upsertSheet st d rs) d = some ⟨d, rs⟩ := by
  refine ⟨getSheet_upsertSheet _ _ _, ?_, ?_, getSheet_upsertSheet _ _ _⟩
  · intro r _ hr
    simp [normalizeRecord, hr]
  · intro r _ t hr ht
    simp [normalizeRecord, hr, ht]

/-- Witness for C9 (amended): a concrete record without a timestamp is
stored by the hardened variant with the save time. -/
theorem timestamp_normalization_hardened_only_witness :
    (normalizeRecord "2024-01-05T08:00:00.000Z"
        ⟨"Ana", "Present", none⟩).timestamp
      = some "2024-01-05T08:00:00.000Z" :=
  (timestamp_normalization_hardened_only [] "2024-01-05"
      "2024-01-05T08:00:00.000Z" [⟨"Ana", "Present", none⟩]).2.1
    ⟨"Ana", "Present", none⟩ (by decide) (by decide)

/-- C10: the unhardened save-attendance validation only tests truthiness,
so a request whose `records` field is a truthy non-array (for example a
non-empty string) is not rejected with 400; the file variant stores the
raw payload, so the stored sheet's records need not be a sequence. -/
theorem save_validation_truthiness_only (st : FileStore) (d s : String)
    (hd : d ≠ "") (hs : s ≠ "") :
    saveAttendanceValid d (.strv s) = true
    ∧ (saveAttendance_file st d (.strv s)).1 = .saved d
    ∧ lookupFileStore (saveAttendance_file st d (.strv s)).2 d
        = some (.strv s)
    ∧ isArrayRecords (.strv s) = false := by
  have hv : saveAttendanceValid d (.strv s) = true := by
    simp [saveAttendanceValid, truthyRecords, hd, hs]
  refine ⟨hv, ?_, ?_, rfl⟩
  · simp [saveAttendance_file, hv]
  · simp [saveAttendance_file, hv, lookupFileStore_upsertFileStore]

/-- Witness for C10: a concrete non-empty string stored as `records`. -/
theorem save_validation_truthiness_only_witness :
    saveAttendanceValid "2024-01-05" (.strv "oops") = true
    ∧ (saveAttendance_file [] "2024-01-05" (.strv "oops")).1
        = .saved "2024-01-05"
    ∧ lookupFileStore (saveAttendance_file [] "2024-01-05"
        (.strv "oops")).2 "2024-01-05" = some (.strv "oops")
    ∧ isArrayRecords (.strv "oops") = false :=
  save_validation_truthiness_only [] "2024-01-05" "oops"
    (by decide) (by decide)

/-- C7 counterexample: a non-empty identifier array in which no
identifier resolves makes the hardened batch delete fail with a 404
(`noneFound`), not succeed with `deletedCount = 0`, `notFoundCount = 1`
as the claim requires. -/
theorem batch_delete_counterexample :
    (deleteBatch [exS1] (.arr ["doesnotexist"])).1 = .noneFound 1
    ∧ (deleteBatch [exS1] (.arr ["doesnotexist"])).1 ≠ .ok 0 1 [] := by
  decide

/-- C7 as amended: for a non-empty identifier array the batch delete
never fails validation; identifiers are attempted independently and a
successful response carries `deletedCount + notFoundCount = ids.length`
with at least one deletion; but when no identifier resolves the whole
batch fails with a 404 instead of reporting zero deletions; missing,
non-array and empty identifier lists fail validation; the spec's literal
example deletes S1 and S2 and counts one not-found. -/
theorem batch_delete_partial_success (roster : List Student)
    (ids : List String) (h : ids ≠ []) :
    (∀ m, (deleteBatch roster (.arr ids)).1 ≠ .invalid m)
    ∧ (∀ dc nf ds, (deleteBatch roster (.arr ids)).1 = .ok dc nf ds →
        dc = ds.length ∧ dc + nf = ids.length ∧ 0 < dc)
    ∧ ((deleteBatch roster (.arr ids)).1 = .noneFound ids.length ↔
        (runDeletes roster ids).1 = [])
    ∧ (deleteBatch roster .absent).1
        = .invalid "studentIds array is required in request body"
    ∧ (deleteBatch roster (.arr [])).1
        = .invalid "studentIds array cannot be empty"
    ∧ (deleteBatch [exS1, exS2] (.arr ["S1", "S2", "doesnotexist"])).1
        = .ok 2 1 [exS1, exS2] := by
  have hne : ids.isEmpty = false := by
    cases ids with
    | nil => exact absurd rfl h
    | cons i is => rfl
  refine ⟨?_, ?_, ?_, rfl, rfl, by decide⟩
  · intro m
    rw [deleteBatch_arr_eq roster ids hne]
    cases hr : (runDeletes roster ids).1.isEmpty with
    | true => simp [hr]
    | false => simp [hr]
  · intro dc nf ds hok
    rw [deleteBatch_arr_eq roster ids hne] at hok
    cases hr : (runDeletes roster ids).1.isEmpty with
    | true => simp [hr] at hok
    | false =>
      simp only [hr, if_false, Bool.false_eq_true] at hok
      obtain ⟨h1, h2, h3⟩ := BatchOutcome.ok.inj hok
      have hlen := runDeletes_fst_length_le ids roster
      have hpos : 0 < (runDeletes roster ids).1.length := by
        cases hl : (runDeletes roster ids).1 with
        | nil => rw [hl] at hr; simp at hr
        | cons a l => simp [hl]
      refine ⟨?_, by omega, by omega⟩
      rw [← h1, ← h3]
  · rw [deleteBatch_arr_eq roster ids hne]
    cases hr : (runDeletes roster ids).1.isEmpty with
    | true =>
      simp only [hr, if_true]
      constructor
      · intro _
        exact List.isEmpty_iff.mp hr
      · intro _
        trivial
    | false =>
      simp only [hr, if_false, Bool.false_eq_true]
      constructor
      · intro habs
        cases habs
      · intro habs
        rw [habs] at hr
        simp at hr

/-- Witness for C7 (amended): the spec's literal example. -/
theorem batch_delete_partial_success_witness :
    (deleteBatch [exS1, exS2] (.arr ["S1", "S2", "doesnotexist"])).1
      = .ok 2 1 [exS1, exS2] :=
  (batch_delete_partial_success [exS1, exS2] ["S1", "S2", "doesnotexist"]
      (by decide)).2.2.2.2.2

/-- C3 counterexample: in the file variant the rate of an empty sheet is
the unguarded `Math.round((0/0)*100) = NaN` (modelled `none`), not 0. -/
theorem rate_empty_sheet_counterexample :
    (summarize_file ⟨"2024-03-01", []⟩).attendanceRate = none
    ∧ (summarize_file ⟨"2024-03-01", []⟩).attendanceRate ≠ some 0 := by
  decide

/-- C3 as amended: in `main.js` and the hardened variant the rate equals
`round(present / total * 100)` with 0 for an empty sheet, and
`0 ≤ attendanceRate ≤ 100` always holds; the file variant agrees on
non-empty sheets but produces NaN (`none`) instead of 0 on empty ones. -/
theorem attendance_rate_formula (sh : AttendanceSheet) :
    ((summarize sh).attendanceRate : ℤ)
      = specRate (presentCount sh.records) sh.records.length
    ∧ (0 : ℤ) ≤ ((summarize sh).attendanceRate : ℤ)
    ∧ (summarize sh).attendanceRate ≤ 100
    ∧ (0 < sh.records.length →
        (summarize_file sh).attendanceRate
          = some ((summarize sh).attendanceRate))
    ∧ (sh.records.length = 0 →
        (summarize_file sh).attendanceRate = none) := by
  have hpt : presentCount sh.records ≤ sh.records.length :=
    List.length_filter_le _ _
  have hrate : (summarize sh).attendanceRate
      = if 0 < sh.records.length
        then ratePercent (presentCount sh.records) sh.records.length
        else 0 := rfl
  have hratef : (summarize_file sh).attendanceRate
      = if 0 < sh.records.length
        then some (ratePercent (presentCount sh.records) sh.records.length)
        else none := rfl
  rcases Nat.eq_zero_or_pos sh.records.length with ht | ht
  · refine ⟨?_, ?_, ?_, ?_, ?_⟩
    · rw [hrate]
      simp [ht, specRate]
    · rw [hrate]
      simp [ht]
    · rw [hrate]
      simp [ht]
    · intro h'
      omega
    · intro _
      rw [hratef]
      simp [ht]
  · refine ⟨?_, ?_, ?_, ?_, ?_⟩
    · rw [hrate, if_pos ht, specRate, if_neg (by omega)]
      exact ratePercent_eq_round _ _ ht
    · exact Int.natCast_nonneg _
    · rw [hrate, if_pos ht]
      exact ratePercent_le_100 hpt ht
    · intro _
      rw [hrate, hratef, if_pos ht, if_pos ht]
    · intro h0
      omega

/-- Witness for C3 (amended): a concrete non-empty sheet on which the
file variant and `main.js` agree. -/
theorem attendance_rate_formula_witness :
    (summarize_file ⟨"2024-01-05",
        [⟨"A", "Present", none⟩, ⟨"B", "Late", none⟩]⟩).attendanceRate
      = some ((summarize ⟨"2024-01-05",
          [⟨"A", "Present", none⟩, ⟨"B", "Late", none⟩]⟩).attendanceRate) :=
  (attendance_rate_formula ⟨"2024-01-05",
      [⟨"A", "Present", none⟩, ⟨"B", "Late", none⟩]⟩).2.2.2.1 (by decide)

/-- C4 counterexample: the file variant counts `absent` as the records
with status exactly `"Absent"`, so a sheet with one `Late` record has
`present = 0`, `absent = 0`, `totalStudents = 1` and
`present + absent ≠ totalStudents`, refuting the claim there. -/
theorem late_counting_counterexample :
    (summarize_file ⟨"2024-03-01", [⟨"Bob", "Late", some "t"⟩]⟩).present = 0
    ∧ (summarize_file ⟨"2024-03-01", [⟨"Bob", "Late", some "t"⟩]⟩).absent = 0
    ∧ (summarize_file
        ⟨"2024-03-01", [⟨"Bob", "Late", some "t"⟩]⟩).totalStudents = 1
    ∧ (summarize_file ⟨"2024-03-01", [⟨"Bob", "Late", some "t"⟩]⟩).present
          + (summarize_file ⟨"2024-03-01", [⟨"Bob", "Late", some "t"⟩]⟩).absent
        ≠ (summarize_file
            ⟨"2024-03-01", [⟨"Bob", "Late", some "t"⟩]⟩).totalStudents := by
  decide

/-- C4 as amended: every entry of `main.js`'s `listSummaries` satisfies
`absent = totalStudents - present` (so `Late` counts as non-present) and
`present + absent = totalStudents`; in the file variant `absent` instead
counts only status `"Absent"`, so `present + absent ≤ totalStudents` with
a strict gap whenever some record is neither `Present` nor `Absent`. -/
theorem summary_absent_complement (st : Store) (s : Summary)
    (hs : s ∈ listSummaries st) :
    s.absent = s.totalStudents - s.present
    ∧ s.present + s.absent = s.totalStudents
    ∧ ∀ sh : AttendanceSheet,
        (summarize_file sh).absent
            = (sh.records.filter (fun r => r.status = "Absent")).length
        ∧ (summarize_file sh).present + (summarize_file sh).absent
            ≤ (summarize_file sh).totalStudents := by
  obtain ⟨sh, _, rfl⟩ := mem_listSummaries hs
  have hpt : presentCount sh.records ≤ sh.records.length :=
    List.length_filter_le _ _
  refine ⟨rfl, ?_, ?_⟩
  · have ha : (summarize sh).absent
        = sh.records.length - presentCount sh.records := rfl
    have hp : (summarize sh).present = presentCount sh.records := rfl
    have htot : (summarize sh).totalStudents = sh.records.length := rfl
    omega
  · intro sh'
    refine ⟨rfl, ?_⟩
    exact filter_two_disjoint_le _ _
      (fun r hr => by
        simp only [decide_eq_true_eq] at hr
        simp [hr]) sh'.records

/-- Witness for C4 (amended): a concrete summary entry. -/
theorem summary_absent_complement_witness :
    (summarize ⟨"2024-01-10", [⟨"Ana Lee", "Present", some "t1"⟩]⟩).present
        + (summarize ⟨"2024-01-10",
            [⟨"Ana Lee", "Present", some "t1"⟩]⟩).absent
      = (summarize ⟨"2024-01-10",
          [⟨"Ana Lee", "Present", some "t1"⟩]⟩).totalStudents :=
  (summary_absent_complement exSearchStore
      (summarize ⟨"2024-01-10", [⟨"Ana Lee", "Present", some "t1"⟩]⟩)
      (by decide)).2.1

/-- C5: `overview` reports `totalRecords = totalClasses = ` number of
sheets, and `averageAttendance = round(sum present / sum total * 100)`
with 0 when there are zero sheets or zero total records; the file and
hardened variants compute the same three fields, and on the spec's
three-sheet example the result is `totalRecords = 3`,
`averageAttendance = 65`. -/
theorem overview_totals (st : Store) :
    (overview st).totalRecords = st.length
    ∧ (overview st).totalClasses = st.length
    ∧ ((overview st).averageAttendance : ℤ) = specAverageAttendance st
    ∧ overview_file st = overview st
    ∧ overview exOverviewStore = ⟨3, 65, 3⟩ := by
  refine ⟨?_, ?_, ?_, rfl, by decide⟩
  · by_cases h : st.length = 0
    · simp [overview, h]
    · simp [overview, h]
  · by_cases h : st.length = 0
    · simp [overview, h]
    · simp [overview, h]
  · by_cases h : st.length = 0
    · have hnil : st = [] := List.length_eq_zero.mp h
      subst hnil
      simp [overview, specAverageAttendance]
    · have hne : st ≠ [] := fun hnil => h (by simp [hnil])
      have hov : overview st =
          ⟨st.length,
           if 0 < (st.map (fun sh => sh.records.length)).sum
           then ratePercent ((st.map (fun sh => presentCount sh.records)).sum)
             ((st.map (fun sh => sh.records.length)).sum)
           else 0,
           st.length⟩ := by
        rw [overview, if_neg h]
      by_cases hts : (st.map (fun sh => sh.records.length)).sum = 0
      · rw [hov]
        show ((if 0 < (st.map (fun sh => sh.records.length)).sum
            then ratePercent ((st.map (fun sh => presentCount sh.records)).sum)
              ((st.map (fun sh => sh.records.length)).sum)
            else 0 : ℕ) : ℤ) = specAverageAttendance st
        rw [if_neg (by omega), specAverageAttendance, if_pos (Or.inr hts)]
        rfl
      · have hts' : 0 < (st.map (fun sh => sh.records.length)).sum :=
          Nat.pos_of_ne_zero hts
        rw [hov]
        show ((if 0 < (st.map (fun sh => sh.records.length)).sum
            then ratePercent ((st.map (fun sh => presentCount sh.records)).sum)
              ((st.map (fun sh => sh.records.length)).sum)
            else 0 : ℕ) : ℤ) = specAverageAttendance st
        rw [if_pos hts', specAverageAttendance,
          if_neg (by push_neg; exact ⟨hne, hts⟩)]
        exact ratePercent_eq_round _ _ hts'

/-- C1 counterexample: the file variant's `records.find(...)` keeps only
the first matching record of each sheet, so on a sheet with two matching
records it returns one hit where the claim requires both (`main.js` does
return both). -/
theorem search_first_match_counterexample :
    searchByName_file exTwoMatchStore "ana"
      = [⟨"2024-01-10", "Ana", "Present", some "t1"⟩]
    ∧ searchByName exTwoMatchStore "ana"
      = [⟨"2024-01-10", "Ana", "Present", some "t1"⟩,
         ⟨"2024-01-10", "Anand", "Late", some "t2"⟩]
    ∧ searchByName_file exTwoMatchStore "ana"
      ≠ searchByName exTwoMatchStore "ana" := by
  decide

/-- C1 as amended: in `main.js` the search returns exactly the flattened
case-insensitive substring matches over all sheets (several per sheet
possible) sorted descending by sheet date, while the file variant returns
at most the first matching record of each sheet (also sorted descending);
on the spec's literal example both variants return the two matches with
the `"2024-01-11"` one first. -/
theorem search_flattens_all_matches (st : Store) (q : String) :
    (searchByName st q).Perm (st.flatMap (sheetHits (lowerStr q)))
    ∧ (∀ h : SearchHit, h ∈ searchByName st q ↔
        ∃ sh ∈ st, ∃ r ∈ sh.records,
          recMatches (lowerStr q) r = true
          ∧ h = ⟨sh.date, r.name, r.status, r.timestamp⟩)
    ∧ List.Pairwise (fun a b => dateVal b.date ≤ dateVal a.date)
        (searchByName st q)
    ∧ List.Pairwise (fun a b => dateVal b.date ≤ dateVal a.date)
        (searchByName_file st q)
    ∧ searchByName exSearchStore "ana"
        = [⟨"2024-01-11", "banana", "Absent", some "t2"⟩,
           ⟨"2024-01-10", "Ana Lee", "Present", some "t1"⟩]
    ∧ searchByName_file exSearchStore "ana"
        = [⟨"2024-01-11", "banana", "Absent", some "t2"⟩,
           ⟨"2024-01-10", "Ana Lee", "Present", some "t1"⟩] := by
  refine ⟨List.perm_insertionSort _ _, ?_,
    pairwise_sortByKeyDesc (fun s : SearchHit => dateVal s.date) _,
    pairwise_sortByKeyDesc (fun s : SearchHit => dateVal s.date) _,
    by decide, by decide⟩
  intro h
  rw [searchByName, sortByKeyDesc, (List.perm_insertionSort _ _).mem_iff,
    List.mem_flatMap]
  constructor
  · rintro ⟨sh, hsh, hmem⟩
    rw [sheetHits] at hmem
    obtain ⟨r, hr, rfl⟩ := List.mem_map.mp hmem
    obtain ⟨hrmem, hmatch⟩ := List.mem_filter.mp hr
    exact ⟨sh, hsh, r, hrmem, hmatch, rfl⟩
  · rintro ⟨sh, hsh, r, hr, hm, rfl⟩
    exact ⟨sh, hsh,
      List.mem_map.mpr ⟨r, List.mem_filter.mpr ⟨hr, hm⟩, rfl⟩⟩

/-- Witness for C1 (amended): the banana hit is a member of the search
result on the example store. -/
theorem search_flattens_all_matches_witness :
    (⟨"2024-01-11", "banana", "Absent", some "t2"⟩ : SearchHit)
      ∈ searchByName exSearchStore "ana" :=
  ((search_flattens_all_matches exSearchStore "ana").2.1
      ⟨"2024-01-11", "banana", "Absent", some "t2"⟩).mpr
    ⟨⟨"2024-01-11", [⟨"banana", "Absent", some "t2"⟩]⟩, by decide,
     ⟨"banana", "Absent", some "t2"⟩, by decide, by decide, rfl⟩

/-- C6: for every store whose sheet dates are canonical zero-padded
`YYYY-MM-DD` strings, all three variants return their summaries sorted
descending by chronological date — the hardened variant sorts by
descending code-unit string order, which coincides with chronological
order on canonical dates — and the month-boundary example orders
`"2024-02-01"` before `"2024-01-31"` in every variant. -/
theorem summaries_sorted_descending (st : Store)
    (hc : ∀ sh ∈ st, isCanonicalDate sh.date = true) :
    List.Pairwise (fun a b => dateVal b.date ≤ dateVal a.date)
      (listSummaries st)
    ∧ List.Pairwise (fun a b => dateVal b.date ≤ dateVal a.date)
      (listSummaries_file st)
    ∧ List.Pairwise (fun a b => dateVal b.date ≤ dateVal a.date)
      (listSummaries_h st)
    ∧ (listSummaries exMonthStore).map (fun s => s.date)
        = ["2024-02-01", "2024-01-31"]
    ∧ (listSummaries_file exMonthStore).map (fun s => s.date)
        = ["2024-02-01", "2024-01-31"]
    ∧ (listSummaries_h exMonthStore).map (fun s => s.date)
        = ["2024-02-01", "2024-01-31"] := by
  refine ⟨pairwise_sortByKeyDesc (fun s : Summary => dateVal s.date) _,
    pairwise_sortByKeyDesc (fun s : FileSummary => dateVal s.date) _,
    ?_, by decide, by decide, by decide⟩
  have hsorted : List.Pairwise (strDesc (fun sh : AttendanceSheet => sh.date))
      (sortByStrDesc (fun sh : AttendanceSheet => sh.date) st) :=
    List.sorted_insertionSort _ _
  rw [listSummaries_h, List.pairwise_map]
  apply List.Pairwise.imp_of_mem ?_ hsorted
  intro x y hx hy hxy
  have hxst : x ∈ st := (List.perm_insertionSort _ _).mem_iff.mp hx
  have hyst : y ∈ st := (List.perm_insertionSort _ _).mem_iff.mp hy
  exact (lexLe_canonical_iff y.date x.date (hc y hyst) (hc x hxst)).mp hxy

/-- Witness for C6: the hardened variant's output on the concrete
month-boundary store is chronologically sorted. -/
theorem summaries_sorted_descending_witness :
    List.Pairwise (fun a b => dateVal b.date ≤ dateVal a.date)
      (listSummaries_h exMonthStore) :=
  (summaries_sorted_descending exMonthStore (by decide)).2.2.1

end AttendanceServer
